import Mathlib

/-!
Shallow embedding of `src/main.py` (AI paper summarizer).

The embedding models, faithfully to the source:
* `extract_sections` — the regex-driven section splitter, including the
  heading pattern `^\s*(\d{1,2}|[IVXLCDM]+)\.?\s+([A-Z][a-zA-Z\s]+)`
  (MULTILINE, found via `finditer`) and the abstract pattern
  `Abstract\n([\s\S]*?)(1\.?\s+Introduction)` (IGNORECASE, via `search`).
  Both patterns are backtracking-free on every input because the character
  classes at each choice point are pairwise disjoint, so a deterministic
  maximal-munch matcher reproduces the Python regex engine exactly.
* `summarize_text` — the chunking adapter around the external model;
  the external model is a parameter, and model-load / per-chunk calls are
  recorded as an explicit event trace.
* `sectionBlock` / `assembleRun` / `main_run` — the report assembler and
  the post-extraction part of `main`.

Machine strings are `String` (= packed `List Char`); texts in scope are
ASCII, for which the ASCII readings of `\s`, `\d`, `[A-Z]`, `[a-zA-Z]`,
`str.lower`, `str.capitalize` below coincide with Python.
-/

namespace PaperSum

/-- Python `\s` (ASCII): space, tab, newline, carriage return, vertical tab, form feed. -/
def pySpace (c : Char) : Bool :=
  c == ' ' || c == '\t' || c == '\n' || c == '\r' || c == '\x0b' || c == '\x0c'

/-- Python `\d` (ASCII digits). -/
def pyDigit (c : Char) : Bool :=
  decide ('0' ≤ c) && decide (c ≤ '9')

/-- The Roman-numeral character class `[IVXLCDM]` of the heading pattern. -/
def romanChar (c : Char) : Bool :=
  c == 'I' || c == 'V' || c == 'X' || c == 'L' || c == 'C' || c == 'D' || c == 'M'

/-- The class `[A-Z]`. -/
def upperChar (c : Char) : Bool :=
  decide ('A' ≤ c) && decide (c ≤ 'Z')

/-- The class `[a-zA-Z]`. -/
def alphaChar (c : Char) : Bool :=
  upperChar c || (decide ('a' ≤ c) && decide (c ≤ 'z'))

/-- The class `[a-zA-Z\s]` used by the heading-title group. -/
def titleChar (c : Char) : Bool :=
  alphaChar c || pySpace c

/-- ASCII lowercasing, as Python `str.lower` acts on ASCII. -/
def asciiLower (c : Char) : Char :=
  if upperChar c then Char.ofNat (c.toNat + 32) else c

/-- ASCII uppercasing, as Python `str.capitalize` acts on an ASCII first character. -/
def asciiUpper (c : Char) : Char :=
  if decide ('a' ≤ c) && decide ('z' ≥ c) then Char.ofNat (c.toNat - 32) else c

/-- Python `str.strip()`: drop whitespace from both ends. -/
def pyStrip (l : List Char) : List Char :=
  ((l.dropWhile pySpace).reverse.dropWhile pySpace).reverse

/-- Python `str.split('\n')`. Always returns at least one piece. -/
def splitNl : List Char → List (List Char)
  | [] => [[]]
  | c :: rest =>
    if c == '\n' then [] :: splitNl rest
    else
      match splitNl rest with
      | [] => [[c]]
      | h :: t => (c :: h) :: t

/-- Case-insensitive literal prefix test (`pat` is given pre-lowercased). -/
def ciStarts : List Char → List Char → Bool
  | [], _ => true
  | _ :: _, [] => false
  | p :: ps, c :: cs => (asciiLower c == p) && ciStarts ps cs

/-!  The heading pattern `^\s*(\d{1,2}|[IVXLCDM]+)\.?\s+([A-Z][a-zA-Z\s]+)`.

`tryHeading l` attempts a match of the pattern (minus the `^` anchor, which
the scanner checks) at the head of `l`; on success it returns the total
number of consumed characters together with group 2.  Greedy maximal munch
is exact here: the classes `\s` / `\d` / `[IVXLCDM]` / `.` / `[A-Z]` are
pairwise disjoint at every juncture, so the Python engine never succeeds
after backtracking where the maximal-munch attempt failed. -/
def tryHeading (l : List Char) : Option (Nat × List Char) :=
  let w := (l.takeWhile pySpace).length
  let r1 := l.drop w
  let digitRun := (r1.takeWhile pyDigit).length
  let numLen := if digitRun > 0 then min 2 digitRun else (r1.takeWhile romanChar).length
  if numLen == 0 then none
  else
    let r2 := r1.drop numLen
    let dotLen := if r2.head? == some '.' then 1 else 0
    let r3 := r2.drop dotLen
    let s := (r3.takeWhile pySpace).length
    if s == 0 then none
    else
      match r3.drop s with
      | [] => none
      | c :: rest =>
        if upperChar c then
          let body := rest.takeWhile titleChar
          if body.length == 0 then none
          else some (w + numLen + dotLen + s + 1 + body.length, c :: body)
        else none

/-- `re.finditer` for the heading pattern under `re.MULTILINE`:
try each position in left-to-right order, only at line starts (position 0 or
just after a newline), and resume scanning at the end of each match.
Fuel decreases every step; `length + 1` fuel is always sufficient because
every step consumes at least one character. -/
def scanAux : Nat → List Char → Nat → Bool → List (Nat × Nat × List Char)
  | 0, _, _, _ => []
  | _ + 1, [], _, _ => []
  | fuel + 1, c :: rest, pos, atStart =>
    if atStart then
      match tryHeading (c :: rest) with
      | some (n, g2) =>
        (pos, pos + n, g2) ::
          scanAux fuel ((c :: rest).drop n) (pos + n)
            (decide (((c :: rest).take n).getLast? = some '\n'))
      | none => scanAux fuel rest (pos + 1) (c == '\n')
    else scanAux fuel rest (pos + 1) (c == '\n')

/-- All heading matches of a text, in document order,
as `(match start, match end, group 2)` triples. -/
def findHeadings (chars : List Char) : List (Nat × Nat × List Char) :=
  scanAux (chars.length + 1) chars 0 true

/-!  The abstract pattern `Abstract\n([\s\S]*?)(1\.?\s+Introduction)`
under `re.IGNORECASE`, applied with `re.search`. -/

/-- Does `1\.?\s+Introduction` (IGNORECASE) match at the head of `l`?
Deterministic for the same disjointness reasons as `tryHeading`. -/
def introHere (l : List Char) : Bool :=
  match l with
  | '1' :: r1 =>
    let r2 := if r1.head? == some '.' then r1.drop 1 else r1
    let s := (r2.takeWhile pySpace).length
    if s == 0 then false
    else ciStarts ("introduction".toList) (r2.drop s)
  | _ => false

/-- Lazy `([\s\S]*?)` followed by the introduction pattern: returns the
shortest run of characters preceding the earliest match of
`1\.?\s+Introduction`, or `none` if that pattern never occurs. -/
def findIntroSplit : List Char → Option (List Char)
  | [] => none
  | c :: rest =>
    if introHere (c :: rest) then some []
    else
      match findIntroSplit rest with
      | some mid => some (c :: mid)
      | none => none

/-- `re.search` for the abstract pattern: leftmost occurrence of
`Abstract\n` (IGNORECASE) that is followed, anywhere later, by the
introduction pattern; returns the lazily-shortest group 1. -/
def findAbstractAux : List Char → Option (List Char)
  | [] => none
  | c :: rest =>
    match (if ciStarts ("abstract\n".toList) (c :: rest)
           then findIntroSplit ((c :: rest).drop 9)
           else none) with
    | some mid => some mid
    | none => findAbstractAux rest

/-!  The section dictionary. -/

/-- A Python dict from section keys to contents, as a lookup function:
`m k = some v` means key `k` is present with value `v`. -/
def SectionMap : Type := String → Option String

/-- The empty dict. -/
def dempty : SectionMap := fun _ => none

/-- Dict insertion `m[k] = v` (overwrites on duplicate key). -/
def dinsert (m : SectionMap) (k v : String) : SectionMap :=
  fun q => if q = k then some v else m q

/-- Normalization of a heading title:
`.strip().lower().replace(" ", "_")`. -/
def normalizeTitle (g2 : List Char) : List Char :=
  ((pyStrip g2).map asciiLower).map (fun c => if c == ' ' then '_' else c)

/-- Python substring containment `pat in l`. -/
def hasSubstr (pat : List Char) : List Char → Bool
  | [] => pat.isEmpty
  | c :: rest => List.isPrefixOf pat (c :: rest) || hasSubstr pat rest

/-- The `if/elif` chain classifying a normalized heading title into a
canonical section key by substring containment, first match wins. -/
def classifyKey (t : List Char) : Option String :=
  if hasSubstr ("introduction".toList) t then some "introduction"
  else if hasSubstr ("method".toList) t || hasSubstr ("methodology".toList) t then
    some "method"
  else if hasSubstr ("result".toList) t || hasSubstr ("experiment".toList) t then
    some "results"
  else if hasSubstr ("conclusion".toList) t || hasSubstr ("discussion".toList) t then
    some "conclusion"
  else if hasSubstr ("related_work".toList) t || hasSubstr ("literature_review".toList) t then
    some "literature_review"
  else if hasSubstr ("reference".toList) t then some "references"
  else none

/-- The per-heading loop of `extract_sections`: for each match, the content
is the text from the match end to the next match start (or end of text),
stripped; the classified key (if any) is overwritten with that content. -/
def assignSections (chars : List Char) (total : Nat) :
    List (Nat × Nat × List Char) → SectionMap → SectionMap
  | [], m => m
  | (_, en, g2) :: rest, m =>
    let endIdx := match rest with
      | (st2, _, _) :: _ => st2
      | [] => total
    let content := pyStrip ((chars.drop en).take (endIdx - en))
    assignSections chars total rest
      (match classifyKey (normalizeTitle g2) with
       | some k => dinsert m k (String.mk content)
       | none => m)

/-- `extract_sections` from `src/main.py`: raw text, first-line title,
abstract pattern, then the heading loop. -/
def extract_sections (text : String) : SectionMap :=
  let chars := text.toList
  let sections0 : SectionMap := dinsert dempty "raw_text" text
  let sections1 := dinsert sections0 "title" (String.mk (pyStrip ((splitNl chars).headD [])))
  let sections2 :=
    match findAbstractAux chars with
    | some g1 => dinsert sections1 "abstract" (String.mk (pyStrip g1))
    | none => sections1
  assignSections chars chars.length (findHeadings chars) sections2

/-!  The summarizer adapter. -/

/-- The external summarization capability:
`(chunk, max_length, min_length) -> summary_text`. -/
def SummFun : Type := String → Nat → Nat → String

/-- Observable resource events of a run: a model load (the `pipeline(...)`
call) and a per-chunk summarizer invocation with its length bounds. -/
inductive Event where
  | modelLoad : Event
  | chunkCall : String → Nat → Nat → Event
deriving DecidableEq, Repr

/-- `[text[i:i+C] for i in range(0, len(text), C)]`.  Fuel-based so it
computes in the kernel; `length + 1` fuel always suffices when `C > 0`
(Python raises for `C = 0`, which never occurs: `main` always passes 1024). -/
def chunkAux : Nat → Nat → List Char → List (List Char)
  | 0, _, _ => []
  | _ + 1, _, [] => []
  | fuel + 1, C, c :: rest => (c :: rest).take C :: chunkAux fuel C ((c :: rest).drop C)

/-- The chunking step of `summarize_text`. -/
def chunkText (C : Nat) (l : List Char) : List (List Char) :=
  chunkAux (l.length + 1) C l

/-- `summarize_text` from `src/main.py`: try to load the model (an
attempted load is always recorded); on failure return the error string;
on success summarize each fixed-size chunk independently and join the
per-chunk summaries with a single space, in order. -/
def summarize_text (load : Option SummFun) (err : String) (text : String)
    (min_length max_length C : Nat) : String × List Event :=
  match load with
  | none => ("Failed to load model. Error: " ++ err, [Event.modelLoad])
  | some summarizer =>
    let text_chunks := chunkText C text.toList
    (String.intercalate " "
       (text_chunks.map (fun ch => summarizer (String.mk ch) max_length min_length)),
     Event.modelLoad ::
       text_chunks.map (fun ch => Event.chunkCall (String.mk ch) max_length min_length))

/-!  The report assembler (the per-section body of the loop in `main`). -/

/-- Python truthiness test `not content` for `content = sections.get(name)`. -/
def falsy : Option String → Bool
  | none => true
  | some s => s.isEmpty

/-- Python `name.replace('_', ' ')`. -/
def underscoreToSpace (s : String) : String :=
  String.mk (s.toList.map (fun c => if c == '_' then ' ' else c))

/-- Python `str.capitalize()` on ASCII: uppercase the first character,
lowercase the rest. -/
def pyCapitalize (s : String) : String :=
  match s.toList with
  | [] => ""
  | c :: rest => String.mk (asciiUpper c :: rest.map asciiLower)

/-- One iteration of the report loop in `main`: the text appended to
`report_content` for the requested section `name`, and the resource events
it causes.  An absent or empty section (other than `summary` and
`contribution`) contributes nothing. -/
def sectionBlock (sm : SectionMap) (load : Option SummFun) (err : String)
    (minL maxL : Nat) (name : String) : String × List Event :=
  let content := sm name
  if falsy content && !(["summary", "contribution"].contains name) then ("", [])
  else
    let heading := "## " ++ pyCapitalize (underscoreToSpace name) ++ "\n"
    let bodyEv : String × List Event :=
      if ["title", "abstract", "references"].contains name then
        (content.getD "" ++ "\n\n", [])
      else if name = "summary" then
        let se := summarize_text load err ((sm "raw_text").getD "") minL maxL 1024
        (se.1 ++ "\n\n", se.2)
      else if name = "contribution" then
        let contrib_text := (sm "abstract").getD "" ++ " " ++ (sm "conclusion").getD ""
        if !(pyStrip contrib_text.toList).isEmpty then
          let se := summarize_text load err contrib_text minL maxL 1024
          (se.1 ++ "\n\n", se.2)
        else
          ("Could not determine contribution (abstract or conclusion not found).\n\n", [])
      else
        let se := summarize_text load err (content.getD "") minL maxL 1024
        (se.1 ++ "\n\n", se.2)
    (heading ++ bodyEv.1, bodyEv.2)

/-- The report loop of `main` over the requested section names, in order. -/
def assembleRun (sm : SectionMap) (load : Option SummFun) (err : String)
    (minL maxL : Nat) : List String → String × List Event
  | [] => ("", [])
  | n :: rest =>
    ((sectionBlock sm load err minL maxL n).1 ++ (assembleRun sm load err minL maxL rest).1,
     (sectionBlock sm load err minL maxL n).2 ++ (assembleRun sm load err minL maxL rest).2)

/-- The fixed expansion of the virtual section name `all`. -/
def allSections : List String :=
  ["title", "abstract", "summary", "introduction", "method", "results",
   "conclusion", "contribution", "literature_review"]

/-- `if 'all' in requested_sections: requested_sections = [...]` —
the expansion replaces the whole request list. -/
def expandAll (req : List String) : List String :=
  if req.contains "all" then allSections else req

/-- `main` after PDF extraction: split the text, process the (possibly
expanded) requested sections, prepend the title line, append the footer. -/
def main_run (full_text : String) (load : Option SummFun) (err : String)
    (minL maxL : Nat) (req : List String) : String × List Event :=
  let sections := extract_sections full_text
  let requested := expandAll req
  ("# Analysis of " ++ ((sections "title").getD "Unknown Paper") ++ "\n\n"
     ++ (assembleRun sections load err minL maxL requested).1
     ++ "---\n*Report generated by the AI Paper Deconstructor.*",
   (assembleRun sections load err minL maxL requested).2)

/-- An identity summarization stub (for concrete runs). -/
def idFun : SummFun := fun s _ _ => s

/-!  Spec-side helper views used by the theorems. -/

/-- The keys the heading loop can write. -/
def hdKeys : List String :=
  ["introduction", "method", "results", "conclusion", "literature_review", "references"]

/-- The fixed closed key set of the section map. -/
def canonicalKeys : List String :=
  ["raw_text", "title", "abstract"] ++ hdKeys

/-- The `(group 2, assigned content)` pairs of the heading loop, in match
order: each content is the stripped text between the match end and the next
match start (or the end of text). -/
def withContents (chars : List Char) (total : Nat) :
    List (Nat × Nat × List Char) → List (List Char × List Char)
  | [] => []
  | (_, en, g2) :: rest =>
    let endIdx := match rest with
      | (st2, _, _) :: _ => st2
      | [] => total
    (g2, pyStrip ((chars.drop en).take (endIdx - en))) :: withContents chars total rest

/-- Replay of the heading-loop insertions from precomputed pairs. -/
def applyAssignments : List (List Char × List Char) → SectionMap → SectionMap
  | [], m => m
  | (g2, content) :: rest, m =>
    applyAssignments rest
      (match classifyKey (normalizeTitle g2) with
       | some k => dinsert m k (String.mk content)
       | none => m)

/-- The content of the last pair that classifies into key `k`, if any. -/
def lastAssign : List (List Char × List Char) → String → Option (List Char)
  | [], _ => none
  | (g, c) :: rest, k =>
    match lastAssign rest k with
    | some c2 => some c2
    | none => if classifyKey (normalizeTitle g) = some k then some c else none

/-- Number of model-load attempts a single requested section causes,
following the spec description of the assembler branches. -/
def blockLoads (sm : SectionMap) (name : String) : Nat :=
  if falsy (sm name) && !(["summary", "contribution"].contains name) then 0
  else if ["title", "abstract", "references"].contains name then 0
  else if name = "summary" then 1
  else if name = "contribution" then
    if !(pyStrip ((sm "abstract").getD "" ++ " " ++ (sm "conclusion").getD "").toList).isEmpty
    then 1 else 0
  else 1

/-!  Helper lemmas: the section dictionary and the heading loop. -/

theorem dinsert_same (m : SectionMap) (k v : String) : dinsert m k v k = some v :=
  if_pos rfl

theorem dinsert_ne (m : SectionMap) {q k : String} (v : String) (h : q ≠ k) :
    dinsert m k v q = m q :=
  if_neg h

theorem classifyKey_mem {t : List Char} {k : String} (h : classifyKey t = some k) :
    k ∈ hdKeys := by
  unfold classifyKey at h
  split_ifs at h <;> simp_all [hdKeys]

theorem assign_eq (chars : List Char) (total : Nat) :
    ∀ (ms : List (Nat × Nat × List Char)) (m : SectionMap),
      assignSections chars total ms m = applyAssignments (withContents chars total ms) m
  | [], _ => rfl
  | (_, _, _) :: rest, m => by
    simp only [assignSections, withContents, applyAssignments]
    exact assign_eq chars total rest _

theorem applyAssignments_stable {q : String} (hq : q ∉ hdKeys) :
    ∀ (ps : List (List Char × List Char)) (m : SectionMap),
      applyAssignments ps m q = m q
  | [], _ => rfl
  | (g, c) :: rest, m => by
    simp only [applyAssignments]
    rw [applyAssignments_stable hq rest]
    cases hc : classifyKey (normalizeTitle g) with
    | none => rfl
    | some k =>
      exact dinsert_ne m _ (fun h => hq (h ▸ classifyKey_mem hc))

theorem lastAssign_none_stable {k : String} :
    ∀ {ps : List (List Char × List Char)}, lastAssign ps k = none →
      ∀ (m : SectionMap), applyAssignments ps m k = m k := by
  intro ps
  induction ps with
  | nil => intro _ m; rfl
  | cons p rest ih =>
    obtain ⟨g, c⟩ := p
    intro h m
    simp only [lastAssign] at h
    cases hr : lastAssign rest k with
    | some c2 => rw [hr] at h; exact absurd h (by simp)
    | none =>
      rw [hr] at h
      simp only [applyAssignments]
      rw [ih hr]
      cases hc : classifyKey (normalizeTitle g) with
      | none => rfl
      | some k2 =>
        rw [hc] at h
        have hk2 : k2 ≠ k := by
          intro e
          rw [e] at h
          simp at h
        exact dinsert_ne m _ (fun e => hk2 e.symm)

theorem lastAssign_some_get {k : String} {c : List Char} :
    ∀ {ps : List (List Char × List Char)}, lastAssign ps k = some c →
      ∀ (m : SectionMap), applyAssignments ps m k = some (String.mk c) := by
  intro ps
  induction ps with
  | nil => intro h; exact absurd h (by simp [lastAssign])
  | cons p rest ih =>
    obtain ⟨g, c0⟩ := p
    intro h m
    simp only [lastAssign] at h
    cases hr : lastAssign rest k with
    | some c2 =>
      rw [hr] at h
      simp only [Option.some.injEq] at h
      subst h
      simp only [applyAssignments]
      exact ih hr _
    | none =>
      rw [hr] at h
      by_cases hc : classifyKey (normalizeTitle g) = some k
      · rw [if_pos hc] at h
        simp only [Option.some.injEq] at h
        subst h
        simp only [applyAssignments]
        rw [hc, lastAssign_none_stable hr]
        exact dinsert_same m k _
      · rw [if_neg hc] at h
        exact absurd h (by simp)

theorem lastAssign_mem {k : String} {c : List Char} :
    ∀ {ps : List (List Char × List Char)}, lastAssign ps k = some c →
      ∃ (j : Nat) (g : List Char), ps[j]? = some (g, c)
        ∧ classifyKey (normalizeTitle g) = some k := by
  intro ps
  induction ps with
  | nil => intro h; exact absurd h (by simp [lastAssign])
  | cons p rest ih =>
    obtain ⟨g0, c0⟩ := p
    intro h
    simp only [lastAssign] at h
    cases hr : lastAssign rest k with
    | some c2 =>
      rw [hr] at h
      simp only [Option.some.injEq] at h
      subst h
      obtain ⟨j, g, hj, hcl⟩ := ih hr
      exact ⟨j + 1, g, by simpa using hj, hcl⟩
    | none =>
      rw [hr] at h
      by_cases hc : classifyKey (normalizeTitle g0) = some k
      · rw [if_pos hc] at h
        simp only [Option.some.injEq] at h
        subst h
        exact ⟨0, g0, by simp, hc⟩
      · rw [if_neg hc] at h
        exact absurd h (by simp)

theorem lastAssign_of_last {k : String} :
    ∀ (ps : List (List Char × List Char)) (j : Nat) (g c : _),
      ps[j]? = some (g, c) →
      classifyKey (normalizeTitle g) = some k →
      (∀ (j2 : Nat) (g2 c2 : _), j < j2 → ps[j2]? = some (g2, c2) →
         classifyKey (normalizeTitle g2) ≠ some k) →
      lastAssign ps k = some c := by
  intro ps
  induction ps with
  | nil => intro j g c hj; exact absurd hj (by simp)
  | cons p rest ih =>
    obtain ⟨gh, ch⟩ := p
    intro j g c hj hcl hlast
    cases j with
    | zero =>
      simp only [List.getElem?_cons_zero, Option.some.injEq, Prod.mk.injEq] at hj
      obtain ⟨e1, e2⟩ := hj
      subst e1; subst e2
      have hrest : lastAssign rest k = none := by
        cases hr : lastAssign rest k with
        | none => rfl
        | some c2 =>
          obtain ⟨j2, g2, hj2, hcl2⟩ := lastAssign_mem hr
          exact absurd hcl2 (hlast (j2 + 1) g2 c2 (Nat.succ_pos j2) (by simpa using hj2))
      simp only [lastAssign, hrest, if_pos hcl]
    | succ j0 =>
      simp only [List.getElem?_cons_succ] at hj
      have hr := ih j0 g c hj hcl
        (fun j2 g2 c2 hlt hj2 =>
          hlast (j2 + 1) g2 c2 (Nat.succ_lt_succ hlt) (by simpa using hj2))
      simp only [lastAssign, hr]

/-!  Helper lemmas: `extract_sections` lookups. -/

theorem splitNl_ne_nil : ∀ (l : List Char), splitNl l ≠ []
  | [] => by simp [splitNl]
  | c :: rest => by
    simp only [splitNl]
    split
    · simp
    · split <;> simp

theorem extract_rawtext (text : String) :
    extract_sections text "raw_text" = some text := by
  unfold extract_sections
  rw [assign_eq, applyAssignments_stable (by decide)]
  cases h : findAbstractAux text.toList <;>
    simp [h, dinsert, dempty]

theorem extract_title (text : String) :
    extract_sections text "title" =
      some (String.mk (pyStrip ((splitNl text.toList).headD []))) := by
  unfold extract_sections
  rw [assign_eq, applyAssignments_stable (by decide)]
  cases h : findAbstractAux text.toList <;>
    simp [h, dinsert, dempty]

theorem extract_abstract (text : String) :
    extract_sections text "abstract" =
      (findAbstractAux text.toList).map (fun g1 => String.mk (pyStrip g1)) := by
  unfold extract_sections
  rw [assign_eq, applyAssignments_stable (by decide)]
  cases h : findAbstractAux text.toList <;>
    simp [h, dinsert, dempty]

theorem extract_base (text : String) {q : String} (hq : q ∉ hdKeys)
    (h2 : q ≠ "abstract") (h3 : q ≠ "title") (h4 : q ≠ "raw_text") :
    extract_sections text q = none := by
  unfold extract_sections
  rw [assign_eq, applyAssignments_stable hq]
  cases h : findAbstractAux text.toList <;>
    simp [h, dinsert, dempty, h2, h3, h4]

theorem extract_hd_lastAssign (text : String) {k : String} (hk : k ∈ hdKeys) :
    extract_sections text k =
      (lastAssign (withContents text.toList text.toList.length
          (findHeadings text.toList)) k).map (fun c => String.mk c) := by
  have h2 : k ≠ "abstract" := by rintro rfl; revert hk; decide
  have h3 : k ≠ "title" := by rintro rfl; revert hk; decide
  have h4 : k ≠ "raw_text" := by rintro rfl; revert hk; decide
  unfold extract_sections
  rw [assign_eq]
  cases hl : lastAssign (withContents text.toList text.toList.length
      (findHeadings text.toList)) k with
  | none =>
    rw [lastAssign_none_stable hl]
    cases h : findAbstractAux text.toList <;>
      simp [h, dinsert, dempty, h2, h3, h4]
  | some c =>
    rw [lastAssign_some_get hl]
    simp

/-!  Helper lemmas: chunking. -/

theorem chunkAux_nil (fuel C : Nat) : chunkAux fuel C [] = [] := by
  cases fuel <;> rfl

theorem chunkAux_fuel {C : Nat} (hC : 0 < C) :
    ∀ (f1 f2 : Nat) (l : List Char), l.length < f1 → l.length < f2 →
      chunkAux f1 C l = chunkAux f2 C l
  | 0, _, l, h1, _ => absurd h1 (by omega)
  | _ + 1, 0, l, _, h2 => absurd h2 (by omega)
  | f1 + 1, f2 + 1, [], _, _ => by rw [chunkAux_nil, chunkAux_nil]
  | f1 + 1, f2 + 1, c :: rest, h1, h2 => by
    simp only [chunkAux]
    congr 1
    have hd : ((c :: rest).drop C).length = (c :: rest).length - C :=
      List.length_drop C (c :: rest)
    apply chunkAux_fuel hC
    · simp only [List.length_cons] at *; omega
    · simp only [List.length_cons] at *; omega

theorem chunkText_cons {C : Nat} (hC : 0 < C) (c : Char) (rest : List Char) :
    chunkText C (c :: rest) = (c :: rest).take C :: chunkText C ((c :: rest).drop C) := by
  unfold chunkText
  simp only [List.length_cons, chunkAux]
  congr 1
  have hd : ((c :: rest).drop C).length = (c :: rest).length - C :=
    List.length_drop C (c :: rest)
  apply chunkAux_fuel hC
  · simp only [List.length_cons] at *; omega
  · omega

theorem chunkText_length {C : Nat} (hC : 0 < C) :
    ∀ (n : Nat) (l : List Char), l.length ≤ n →
      (chunkText C l).length = (l.length + C - 1) / C
  | _, [], _ => by
    simp only [chunkText, chunkAux_nil, List.length_nil]
    rw [Nat.div_eq_of_lt (by omega)]
  | 0, c :: rest, h => absurd h (by simp)
  | n + 1, c :: rest, h => by
    rw [chunkText_cons hC]
    have hd : ((c :: rest).drop C).length = (c :: rest).length - C :=
      List.length_drop C (c :: rest)
    have hlen : ((c :: rest).drop C).length ≤ n := by
      simp only [List.length_cons] at *; omega
    rw [List.length_cons, chunkText_length hC n _ hlen, hd]
    simp only [List.length_cons]
    by_cases hLC : rest.length + 1 ≤ C
    · have e1 : rest.length + 1 - C = 0 := by omega
      have e2 : rest.length + 1 + C - 1 = rest.length + C := by omega
      rw [e1, e2, Nat.add_div_right _ hC, Nat.div_eq_of_lt (by omega),
        Nat.div_eq_of_lt (by omega)]
    · have e1 : rest.length + 1 - C + C - 1 = (rest.length - C) + C := by omega
      have e2 : rest.length + 1 + C - 1 = (rest.length - C) + C + C := by omega
      rw [e1, e2, Nat.add_div_right _ hC, Nat.add_div_right _ hC, Nat.add_div_right _ hC]

theorem chunkText_flatten {C : Nat} (hC : 0 < C) :
    ∀ (n : Nat) (l : List Char), l.length ≤ n → (chunkText C l).flatten = l
  | _, [], _ => by simp [chunkText, chunkAux_nil]
  | 0, c :: rest, h => absurd h (by simp)
  | n + 1, c :: rest, h => by
    rw [chunkText_cons hC, List.flatten_cons]
    have hd : ((c :: rest).drop C).length = (c :: rest).length - C :=
      List.length_drop C (c :: rest)
    have hlen : ((c :: rest).drop C).length ≤ n := by
      simp only [List.length_cons] at *; omega
    rw [chunkText_flatten hC n _ hlen]
    exact List.take_append_drop C (c :: rest)

theorem chunkText_getElem {C : Nat} (hC : 0 < C) :
    ∀ (n : Nat) (l : List Char) (i : Nat), l.length ≤ n →
      (chunkText C l)[i]? =
        if l.drop (i * C) = [] then none else some ((l.drop (i * C)).take C)
  | _, [], i, _ => by simp [chunkText, chunkAux_nil]
  | 0, c :: rest, _, h => absurd h (by simp)
  | n + 1, c :: rest, i, h => by
    rw [chunkText_cons hC]
    cases i with
    | zero => simp
    | succ i0 =>
      rw [List.getElem?_cons_succ]
      have hd : ((c :: rest).drop C).length = (c :: rest).length - C :=
        List.length_drop C (c :: rest)
      have hlen : ((c :: rest).drop C).length ≤ n := by
        simp only [List.length_cons] at *; omega
      rw [chunkText_getElem hC n _ i0 hlen, List.drop_drop]
      have e : C + i0 * C = (i0 + 1) * C := by
        rw [Nat.succ_mul]; omega
      rw [e]

/-!  Helper lemmas: resource-event counting. -/

theorem count_chunkCalls (l : List (List Char)) (a b : Nat) :
    (l.map (fun ch => Event.chunkCall (String.mk ch) a b)).count Event.modelLoad = 0 := by
  rw [List.count_eq_zero]
  intro h
  rcases List.mem_map.mp h with ⟨ch, _, he⟩
  cases he

theorem summarize_load_count (load : Option SummFun) (err text : String)
    (mn mx C : Nat) :
    (summarize_text load err text mn mx C).2.count Event.modelLoad = 1 := by
  cases load with
  | none => rfl
  | some f =>
    simp only [summarize_text]
    rw [List.count_cons, count_chunkCalls]
    simp

theorem sectionBlock_load_count (sm : SectionMap) (load : Option SummFun)
    (err : String) (mn mx : Nat) (name : String) :
    (sectionBlock sm load err mn mx name).2.count Event.modelLoad = blockLoads sm name := by
  simp only [sectionBlock, blockLoads]
  by_cases h1 : (falsy (sm name) && !(["summary", "contribution"].contains name)) = true
  · rw [if_pos h1, if_pos h1]; rfl
  · rw [if_neg h1, if_neg h1]
    by_cases h2 : (["title", "abstract", "references"].contains name) = true
    · rw [if_pos h2, if_pos h2]; rfl
    · rw [if_neg h2, if_neg h2]
      by_cases h3 : name = "summary"
      · rw [if_pos h3, if_pos h3]
        exact summarize_load_count load err _ mn mx 1024
      · rw [if_neg h3, if_neg h3]
        by_cases h4 : name = "contribution"
        · rw [if_pos h4, if_pos h4]
          by_cases h5 : (!(pyStrip ((sm "abstract").getD "" ++ " "
              ++ (sm "conclusion").getD "").toList).isEmpty) = true
          · rw [if_pos h5, if_pos h5]
            exact summarize_load_count load err _ mn mx 1024
          · rw [if_neg h5, if_neg h5]; rfl
        · rw [if_neg h4, if_neg h4]
          exact summarize_load_count load err _ mn mx 1024

theorem assembleRun_load_count (sm : SectionMap) (load : Option SummFun)
    (err : String) (mn mx : Nat) :
    ∀ (names : List String),
      (assembleRun sm load err mn mx names).2.count Event.modelLoad
        = (names.map (blockLoads sm)).sum
  | [] => rfl
  | n :: rest => by
    simp only [assembleRun, List.count_append, List.map_cons, List.sum_cons,
      sectionBlock_load_count, assembleRun_load_count sm load err mn mx rest]

/-!  Helper lemmas: report assembly shape. -/

theorem assembleRun_fst (sm : SectionMap) (load : Option SummFun)
    (err : String) (mn mx : Nat) :
    ∀ (names : List String),
      (assembleRun sm load err mn mx names).1
        = (names.map (fun n => (sectionBlock sm load err mn mx n).1)).foldr (· ++ ·) ""
  | [] => rfl
  | n :: rest => by
    simp only [assembleRun, List.map_cons, List.foldr_cons,
      assembleRun_fst sm load err mn mx rest]

theorem heading_block_ne_empty (s t : String) : ("## " ++ s ++ "\n" ++ t) ≠ "" := by
  intro he
  have hl := congrArg String.length he
  rw [String.length_append, String.length_append, String.length_append] at hl
  have h3 : ("## " : String).length = 3 := rfl
  have h1 : ("\n" : String).length = 1 := rfl
  rw [h3, h1] at hl
  simp at hl

theorem sectionBlock_skip (sm : SectionMap) (load : Option SummFun)
    (err : String) (mn mx : Nat) (name : String)
    (h : (falsy (sm name) && !(["summary", "contribution"].contains name)) = true) :
    sectionBlock sm load err mn mx name = ("", []) := by
  simp only [sectionBlock]
  rw [if_pos h]

theorem sectionBlock_emit (sm : SectionMap) (load : Option SummFun)
    (err : String) (mn mx : Nat) (name : String)
    (h : (falsy (sm name) && !(["summary", "contribution"].contains name)) = false) :
    ∃ t : String, (sectionBlock sm load err mn mx name).1
      = "## " ++ pyCapitalize (underscoreToSpace name) ++ "\n" ++ t := by
  simp only [sectionBlock, h, Bool.false_eq_true, if_false]
  exact ⟨_, rfl⟩

theorem sectionBlock_empty_iff (sm : SectionMap) (load : Option SummFun)
    (err : String) (mn mx : Nat) (name : String) :
    ((sectionBlock sm load err mn mx name).1 = "" ↔
      (falsy (sm name) && !(["summary", "contribution"].contains name)) = true) := by
  cases h : (falsy (sm name) && !(["summary", "contribution"].contains name)) with
  | true => simp [sectionBlock_skip sm load err mn mx name h]
  | false =>
    simp only [h, Bool.false_eq_true, iff_false]
    obtain ⟨t, ht⟩ := sectionBlock_emit sm load err mn mx name h
    rw [ht]
    apply heading_block_ne_empty

theorem string_empty_append (s : String) : "" ++ s = s := by
  cases s
  rfl

theorem sectionBlock_contribution (sm : SectionMap) (load : Option SummFun)
    (err : String) (mn mx : Nat) :
    sectionBlock sm load err mn mx "contribution"
      = (if (!(pyStrip ((sm "abstract").getD "" ++ " "
              ++ (sm "conclusion").getD "").toList).isEmpty) = true
         then ("## Contribution\n"
                 ++ ((summarize_text load err ((sm "abstract").getD "" ++ " "
                       ++ (sm "conclusion").getD "") mn mx 1024).1 ++ "\n\n"),
               (summarize_text load err ((sm "abstract").getD "" ++ " "
                       ++ (sm "conclusion").getD "") mn mx 1024).2)
         else ("## Contribution\nCould not determine contribution (abstract or conclusion not found).\n\n",
               [])) := by
  have hskip : (falsy (sm "contribution")
      && !(["summary", "contribution"].contains "contribution")) = false := by
    have h : (!(["summary", "contribution"].contains "contribution")) = false := rfl
    rw [h, Bool.and_false]
  simp only [sectionBlock]
  rw [if_neg (by rw [hskip]; exact Bool.false_ne_true)]
  by_cases h5 : (!(pyStrip ((sm "abstract").getD "" ++ " "
      ++ (sm "conclusion").getD "").toList).isEmpty) = true
  · simp only [if_pos h5]
    rfl
  · simp only [if_neg h5]
    rfl

/-!  ## The claims -/

/-- Claim C1, counterexample: for the empty document the requested section
`introduction` is absent, yet the assembler contributes nothing at all to the
report for it — not even a heading line — contradicting the claimed
heading-only block. -/
theorem c1_cex :
    (extract_sections "") "introduction" = none
    ∧ sectionBlock (extract_sections "") (some idFun) "" 40 150 "introduction"
        = ("", []) := by
  decide

/-- Claim C1 (amended): a requested section whose looked-up content is absent
or empty, and which is not `summary` or `contribution`, contributes nothing to
the report — no heading line and no body (a message goes to the console log
only) — and processing continues with the next requested section unchanged. -/
theorem c1_missing_section_skipped (sm : SectionMap) (load : Option SummFun)
    (err : String) (mn mx : Nat) (name : String) (rest : List String)
    (hfalsy : falsy (sm name) = true)
    (hname : (["summary", "contribution"].contains name) = false) :
    sectionBlock sm load err mn mx name = ("", [])
    ∧ assembleRun sm load err mn mx (name :: rest)
        = assembleRun sm load err mn mx rest := by
  have hcond : (falsy (sm name) && !(["summary", "contribution"].contains name)) = true := by
    rw [hfalsy, hname]
    rfl
  have hb := sectionBlock_skip sm load err mn mx name hcond
  refine ⟨hb, ?_⟩
  simp only [assembleRun, hb]
  rw [string_empty_append, List.nil_append]

/-- Claim C1 witness: the amended theorem at a concrete skipped section. -/
theorem c1_missing_section_skipped_witness :
    falsy ((extract_sections "") "introduction") = true
    ∧ (["summary", "contribution"].contains "introduction") = false
    ∧ sectionBlock (extract_sections "") (some idFun) "x" 40 150 "introduction" = ("", [])
    ∧ assembleRun (extract_sections "") (some idFun) "x" 40 150 ["introduction", "method"]
        = assembleRun (extract_sections "") (some idFun) "x" 40 150 ["method"] :=
  ⟨by decide, by decide,
   (c1_missing_section_skipped (extract_sections "") (some idFun) "x" 40 150
      "introduction" ["method"] (by decide) (by decide)).1,
   (c1_missing_section_skipped (extract_sections "") (some idFun) "x" 40 150
      "introduction" ["method"] (by decide) (by decide)).2⟩

/-- Claim C2, counterexample: a run that summarizes two sections
(`introduction` and `method`) records two model loads — `summarize_text`
reloads the model on every call, so within a single run the model is loaded
a second time. -/
theorem c2_cex :
    (main_run "T\n1. Introduction 7\n2. Method 8" (some idFun) "" 40 150
        ["introduction", "method"]).2.count Event.modelLoad = 2 := by
  decide

/-- Claim C2 (amended): the model is loaded once per `summarize_text`
invocation, not once per run: every invocation records exactly one load,
whose handle serves all chunks of that invocation, and a run performs one
load per summarization-producing block (`blockLoads` counts them). -/
theorem c2_load_per_invocation (sm : SectionMap) (load : Option SummFun)
    (err text : String) (mn mx C : Nat) (names : List String) :
    (summarize_text load err text mn mx C).2.count Event.modelLoad = 1
    ∧ (assembleRun sm load err mn mx names).2.count Event.modelLoad
        = (names.map (blockLoads sm)).sum :=
  ⟨summarize_load_count load err text mn mx C,
   assembleRun_load_count sm load err mn mx names⟩

/-- Claim C3, counterexample: on the empty document no heading is detected,
yet the key `title` (distinct from `raw_text`) is present in the returned
map, so a non-`raw_text` key can be present without any matching heading. -/
theorem c3_cex :
    findHeadings ("" : String).toList = []
    ∧ (extract_sections "") "title" = some "" := by
  decide

/-- Claim C3 (amended): the keys of the section map are a subset of the
fixed canonical set; `raw_text` is always present, bound to the full input
verbatim; `title` is also always present (the stripped first line, no
heading required); `abstract` is present only if the abstract pattern
matched; every remaining key is present only if the heuristic found a
heading classifying to it. -/
theorem c3_section_map_invariant (text : String) :
    extract_sections text "raw_text" = some text
    ∧ extract_sections text "title"
        = some (String.mk (pyStrip ((splitNl text.toList).headD [])))
    ∧ (∀ k, extract_sections text k ≠ none → k ∈ canonicalKeys)
    ∧ (extract_sections text "abstract" ≠ none → findAbstractAux text.toList ≠ none)
    ∧ (∀ k, k ∈ hdKeys → extract_sections text k ≠ none →
        ∃ (j : Nat) (g c : List Char),
          (withContents text.toList text.toList.length (findHeadings text.toList))[j]?
            = some (g, c)
          ∧ classifyKey (normalizeTitle g) = some k) := by
  refine ⟨extract_rawtext text, extract_title text, ?_, ?_, ?_⟩
  · intro k h
    by_cases hk : k ∈ hdKeys
    · exact List.mem_append_right _ hk
    · by_cases h2 : k = "abstract"
      · subst h2; decide
      · by_cases h3 : k = "title"
        · subst h3; decide
        · by_cases h4 : k = "raw_text"
          · subst h4; decide
          · exact absurd (extract_base text hk h2 h3 h4) h
  · intro h he
    rw [extract_abstract text, he] at h
    simp at h
  · intro k hk h
    rw [extract_hd_lastAssign text hk] at h
    cases hl : lastAssign (withContents text.toList text.toList.length
        (findHeadings text.toList)) k with
    | none => rw [hl] at h; simp at h
    | some c =>
      obtain ⟨j, g, hj, hcl⟩ := lastAssign_mem hl
      exact ⟨j, g, c, hj, hcl⟩

/-- Claim C3 witness: the amended invariant at a concrete document,
with the key-subset implication discharged at the present key
`introduction`. -/
theorem c3_section_map_invariant_witness :
    extract_sections "T\n1. Introduction 7\n2. Method 8" "raw_text"
        = some "T\n1. Introduction 7\n2. Method 8"
    ∧ ("introduction" : String) ∈ canonicalKeys :=
  ⟨(c3_section_map_invariant "T\n1. Introduction 7\n2. Method 8").1,
   (c3_section_map_invariant "T\n1. Introduction 7\n2. Method 8").2.2.1
     "introduction" (by decide)⟩

/-- Claim C4 (confirmed): when two (or more) detected headings classify into
the same canonical key — an earlier one at index `i` and the last one at
index `j` — the content stored under that key is exactly the later (last)
heading's assigned content: last write wins. -/
theorem c4_last_write_wins (text : String) (k : String) (i j : Nat)
    (gi ci gj cj : List Char)
    (_hi : (withContents text.toList text.toList.length (findHeadings text.toList))[i]?
        = some (gi, ci))
    (_hci : classifyKey (normalizeTitle gi) = some k)
    (_hij : i < j)
    (hj : (withContents text.toList text.toList.length (findHeadings text.toList))[j]?
        = some (gj, cj))
    (hcj : classifyKey (normalizeTitle gj) = some k)
    (hlast : ∀ (j2 : Nat) (g2 c2 : List Char), j < j2 →
        (withContents text.toList text.toList.length (findHeadings text.toList))[j2]?
          = some (g2, c2) →
        classifyKey (normalizeTitle g2) ≠ some k) :
    extract_sections text k = some (String.mk cj) := by
  have hla := lastAssign_of_last _ j gj cj hj hcj hlast
  rw [extract_hd_lastAssign text (classifyKey_mem hcj), hla]
  rfl

/-- Claim C4 witness: two headings both classifying to `conclusion`
(both titles contain `discussion`); the stored content is the second
heading's content `"9"`. -/
theorem c4_last_write_wins_witness :
    extract_sections "T\n1. Discussion A\n2. Discussion B\nend9" "conclusion"
      = some "9" := by
  have h := c4_last_write_wins "T\n1. Discussion A\n2. Discussion B\nend9" "conclusion"
    0 1 ("Discussion A\n".toList) [] ("Discussion B\nend".toList) ['9']
    (by decide) (by decide) (by decide) (by decide) (by decide)
    (fun j2 g2 c2 hlt hj2 => by
      have hnone : (withContents ("T\n1. Discussion A\n2. Discussion B\nend9").toList
          ("T\n1. Discussion A\n2. Discussion B\nend9").toList.length
          (findHeadings ("T\n1. Discussion A\n2. Discussion B\nend9").toList))[j2]?
            = none := by
        apply List.getElem?_eq_none
        have hl2 : (withContents ("T\n1. Discussion A\n2. Discussion B\nend9").toList
            ("T\n1. Discussion A\n2. Discussion B\nend9").toList.length
            (findHeadings ("T\n1. Discussion A\n2. Discussion B\nend9").toList)).length
              = 2 := by decide
        omega
      rw [hnone] at hj2
      cases hj2)
  exact h

/-- Claim C5 (confirmed): with chunk size `C > 0`, the adapter splits a text
of length `L` into exactly `⌈L/C⌉` consecutive non-overlapping chunks —
chunk `i` is the length-`C` slice at offset `i*C`, each non-final chunk has
length exactly `C`, and the chunks concatenate back to the whole text —
then summarizes each chunk independently with the given bounds and joins
the per-chunk summaries with single spaces in original chunk order. -/
theorem c5_chunking (f : SummFun) (err text : String) (mn mx C : Nat) (hC : 0 < C) :
    (chunkText C text.toList).length = (text.toList.length + C - 1) / C
    ∧ (chunkText C text.toList).flatten = text.toList
    ∧ (∀ i, i < (chunkText C text.toList).length →
        (chunkText C text.toList)[i]? = some ((text.toList.drop (i * C)).take C))
    ∧ (∀ i, i + 1 < (chunkText C text.toList).length →
        ((text.toList.drop (i * C)).take C).length = C)
    ∧ (summarize_text (some f) err text mn mx C).1
        = String.intercalate " "
            ((chunkText C text.toList).map (fun ch => f (String.mk ch) mx mn)) := by
  have hlen := chunkText_length hC text.toList.length text.toList (le_refl _)
  refine ⟨hlen, chunkText_flatten hC text.toList.length text.toList (le_refl _),
    ?_, ?_, rfl⟩
  · intro i hi
    rw [chunkText_getElem hC text.toList.length text.toList i (le_refl _), if_neg]
    intro he
    rw [List.drop_eq_nil_iff] at he
    rw [hlen] at hi
    have h2 : (i + 1) * C ≤ text.toList.length + C - 1 :=
      (Nat.le_div_iff_mul_le hC).mp hi
    rw [Nat.succ_mul] at h2
    omega
  · intro i hi
    rw [hlen] at hi
    have h2 : (i + 2) * C ≤ text.toList.length + C - 1 :=
      (Nat.le_div_iff_mul_le hC).mp hi
    have h3 : (i + 2) * C = i * C + C + C := by ring
    rw [h3] at h2
    rw [List.length_take, List.length_drop]
    omega

/-- Claim C5 witness: the chunking properties at text `"abcde"` with
chunk size 2 (chunks `ab`, `cd`, `e`). -/
theorem c5_chunking_witness :
    0 < 2
    ∧ (chunkText 2 "abcde".toList).length = ("abcde".toList.length + 2 - 1) / 2
    ∧ (chunkText 2 "abcde".toList).flatten = "abcde".toList
    ∧ (chunkText 2 "abcde".toList)[1]? = some (("abcde".toList.drop (1 * 2)).take 2)
    ∧ (("abcde".toList.drop (0 * 2)).take 2).length = 2
    ∧ (summarize_text (some idFun) "" "abcde" 40 150 2).1
        = String.intercalate " "
            ((chunkText 2 "abcde".toList).map (fun ch => idFun (String.mk ch) 150 40)) :=
  ⟨by decide,
   (c5_chunking idFun "" "abcde" 40 150 2 (by decide)).1,
   (c5_chunking idFun "" "abcde" 40 150 2 (by decide)).2.1,
   (c5_chunking idFun "" "abcde" 40 150 2 (by decide)).2.2.1 1 (by decide),
   (c5_chunking idFun "" "abcde" 40 150 2 (by decide)).2.2.2.1 0 (by decide),
   (c5_chunking idFun "" "abcde" 40 150 2 (by decide)).2.2.2.2⟩

/-- Claim C6, counterexample: requesting `all` on the empty document expands
to the fixed list, which contains `title`, yet the produced report contains
no `## Title` heading block anywhere — entries with absent or empty content
are skipped entirely — so the report does not contain one heading block per
expanded entry. -/
theorem c6_cex :
    ("title" : String) ∈ allSections
    ∧ hasSubstr ("## Title".toList)
        (main_run "" (some idFun) "" 40 150 ["all"]).1.toList = false := by
  decide

/-- Claim C6 (amended): a request list containing `all` is replaced
wholesale by the fixed ordered list, which omits `references`; the report
body is the concatenation, in that fixed order, of the per-entry blocks;
and an entry produces a nonempty block exactly when its content is present
and nonempty or it is `summary` or `contribution` — other entries are
skipped with no heading block at all. -/
theorem c6_all_expansion (req : List String) (sm : SectionMap)
    (load : Option SummFun) (err : String) (mn mx : Nat)
    (hall : req.contains "all" = true) :
    expandAll req = allSections
    ∧ allSections.contains "references" = false
    ∧ (assembleRun sm load err mn mx allSections).1
        = (allSections.map (fun n => (sectionBlock sm load err mn mx n).1)).foldr
            (· ++ ·) ""
    ∧ (∀ n, ((sectionBlock sm load err mn mx n).1 = ""
        ↔ (falsy (sm n) && !(["summary", "contribution"].contains n)) = true)) := by
  refine ⟨?_, by decide, assembleRun_fst sm load err mn mx allSections,
    fun n => sectionBlock_empty_iff sm load err mn mx n⟩
  unfold expandAll
  rw [if_pos hall]

/-- Claim C6 witness: the amended theorem at the request list `[all]`. -/
theorem c6_all_expansion_witness :
    (["all"].contains "all") = true
    ∧ expandAll ["all"] = allSections
    ∧ allSections.contains "references" = false :=
  ⟨by decide,
   (c6_all_expansion ["all"] dempty (some idFun) "" 40 150 (by decide)).1,
   (c6_all_expansion ["all"] dempty (some idFun) "" 40 150 (by decide)).2.1⟩

/-- Claim C7, counterexample: in `"A\n1. Alpha 9\n2. Beta 8"` the first
heading match ends at index 11 and the next match starts at index 13; the
raw substring between them is `"9\n"`, but the content assigned to the first
heading is the stripped `"9"`, which is not that exact substring. -/
theorem c7_cex :
    (findHeadings ("A\n1. Alpha 9\n2. Beta 8").toList)[0]?
        = some (2, 11, "Alpha ".toList)
    ∧ (findHeadings ("A\n1. Alpha 9\n2. Beta 8").toList)[1]?
        = some (13, 21, "Beta ".toList)
    ∧ (("A\n1. Alpha 9\n2. Beta 8").toList.drop 11).take (13 - 11) = ['9', '\n']
    ∧ (withContents ("A\n1. Alpha 9\n2. Beta 8").toList
        ("A\n1. Alpha 9\n2. Beta 8").toList.length
        (findHeadings ("A\n1. Alpha 9\n2. Beta 8").toList))[0]?
        = some ("Alpha ".toList, ['9'])
    ∧ (['9'] : List Char) ≠ ['9', '\n'] := by
  decide

/-- Claim C7 (amended): the content assigned to the i-th detected heading is
the substring of the raw text from immediately after that heading's match
end to immediately before the next match's start (or to the end of text for
the last heading), stripped of surrounding whitespace. -/
theorem c7_heading_content (chars : List Char) (total : Nat)
    (ms : List (Nat × Nat × List Char)) (i st en : Nat) (g2 : List Char)
    (h : ms[i]? = some (st, en, g2)) :
    (withContents chars total ms)[i]? =
      some (g2, pyStrip ((chars.drop en).take
        ((match ms[i + 1]? with
          | some (st2, _, _) => st2
          | none => total) - en))) := by
  induction ms generalizing i with
  | nil => simp at h
  | cons p rest ih =>
    obtain ⟨st0, en0, g0⟩ := p
    cases i with
    | zero =>
      simp only [List.getElem?_cons_zero, Option.some.injEq, Prod.mk.injEq] at h
      obtain ⟨e1, e2, e3⟩ := h
      subst e1
      subst e2
      subst e3
      cases rest with
      | nil => simp [withContents]
      | cons q rest2 =>
        obtain ⟨st2, en2, g2b⟩ := q
        simp [withContents]
    | succ i0 =>
      simp only [List.getElem?_cons_succ] at h
      simp only [withContents, List.getElem?_cons_succ]
      exact ih i0 h

/-- Claim C7 witness: the amended theorem at the first heading of a
concrete two-heading document. -/
theorem c7_heading_content_witness :
    (findHeadings ("T\n1. Introduction 7\n2. Method 8").toList)[0]?
      = some (2, 18, "Introduction ".toList)
    ∧ (withContents ("T\n1. Introduction 7\n2. Method 8").toList
        ("T\n1. Introduction 7\n2. Method 8").toList.length
        (findHeadings ("T\n1. Introduction 7\n2. Method 8").toList))[0]?
      = some ("Introduction ".toList,
          pyStrip ((("T\n1. Introduction 7\n2. Method 8").toList.drop 18).take
            ((match (findHeadings ("T\n1. Introduction 7\n2. Method 8").toList)[0 + 1]? with
              | some (st2, _, _) => st2
              | none => ("T\n1. Introduction 7\n2. Method 8").toList.length) - 18))) :=
  ⟨by decide,
   c7_heading_content ("T\n1. Introduction 7\n2. Method 8").toList
     ("T\n1. Introduction 7\n2. Method 8").toList.length
     (findHeadings ("T\n1. Introduction 7\n2. Method 8").toList)
     0 2 18 ("Introduction ".toList) (by decide)⟩

/-- Claim C8 (confirmed): for a requested `contribution` block, when both
`abstract` and `conclusion` are absent from the map the assembler emits the
fixed fallback message under the heading and performs no summarization
(no events at all); when the space-joined concatenation of the two pieces
is nonempty after stripping, the assembler summarizes that concatenation
and emits the result instead. -/
theorem c8_contribution_fallback (sm : SectionMap) (load : Option SummFun)
    (err : String) (mn mx : Nat) :
    ((sm "abstract" = none ∧ sm "conclusion" = none) →
      sectionBlock sm load err mn mx "contribution"
        = ("## Contribution\nCould not determine contribution (abstract or conclusion not found).\n\n",
           []))
    ∧ ((pyStrip ((sm "abstract").getD "" ++ " "
          ++ (sm "conclusion").getD "").toList).isEmpty = false →
      sectionBlock sm load err mn mx "contribution"
        = ("## Contribution\n"
             ++ ((summarize_text load err ((sm "abstract").getD "" ++ " "
                   ++ (sm "conclusion").getD "") mn mx 1024).1 ++ "\n\n"),
           (summarize_text load err ((sm "abstract").getD "" ++ " "
                   ++ (sm "conclusion").getD "") mn mx 1024).2)) := by
  constructor
  · rintro ⟨ha, hc⟩
    rw [sectionBlock_contribution, ha, hc]
    rw [if_neg (by decide)]
  · intro h
    rw [sectionBlock_contribution, if_pos (by rw [h]; rfl)]

/-- Claim C8 witness: the fallback branch on the empty document (both
pieces absent) and the summarization branch on a document with an
abstract. -/
theorem c8_contribution_fallback_witness :
    (extract_sections "") "abstract" = none
    ∧ (extract_sections "") "conclusion" = none
    ∧ sectionBlock (extract_sections "") (some idFun) "" 40 150 "contribution"
        = ("## Contribution\nCould not determine contribution (abstract or conclusion not found).\n\n",
           [])
    ∧ sectionBlock
        (extract_sections "Paper Title\nAbstract\nThis is the abstract.\n1. Introduction\nIntro text here.")
        (some idFun) "" 40 150 "contribution"
        = ("## Contribution\n"
             ++ ((summarize_text (some idFun) ""
                   (((extract_sections "Paper Title\nAbstract\nThis is the abstract.\n1. Introduction\nIntro text here.") "abstract").getD ""
                     ++ " "
                     ++ (((extract_sections "Paper Title\nAbstract\nThis is the abstract.\n1. Introduction\nIntro text here.") "conclusion").getD ""))
                   40 150 1024).1 ++ "\n\n"),
           (summarize_text (some idFun) ""
                   (((extract_sections "Paper Title\nAbstract\nThis is the abstract.\n1. Introduction\nIntro text here.") "abstract").getD ""
                     ++ " "
                     ++ (((extract_sections "Paper Title\nAbstract\nThis is the abstract.\n1. Introduction\nIntro text here.") "conclusion").getD ""))
                   40 150 1024).2) :=
  ⟨by decide, by decide,
   (c8_contribution_fallback (extract_sections "") (some idFun) "" 40 150).1
     ⟨by decide, by decide⟩,
   (c8_contribution_fallback
      (extract_sections "Paper Title\nAbstract\nThis is the abstract.\n1. Introduction\nIntro text here.")
      (some idFun) "" 40 150).2 (by decide)⟩

/-- Claim C9 (confirmed): on the concrete document
`"Paper Title\nAbstract\nThis is the abstract.\n1. Introduction\nIntro text here."`,
requesting `title` then `abstract` with summarization stubbed to identity
yields exactly the report whose overall title line is
`# Analysis of Paper Title`, followed by the block `## Title\nPaper Title`
and then the block `## Abstract\nThis is the abstract.`, in that order,
with no summarizer activity. -/
theorem c9_round_trip :
    main_run "Paper Title\nAbstract\nThis is the abstract.\n1. Introduction\nIntro text here."
        (some idFun) "" 40 150 ["title", "abstract"]
      = ("# Analysis of Paper Title\n\n## Title\nPaper Title\n\n## Abstract\nThis is the abstract.\n\n---\n*Report generated by the AI Paper Deconstructor.*",
         []) := by
  decide

/-- Claim C10 (confirmed): splitting any input on newlines yields at least
one line, so the first-line access of the splitter is safe; the `title` key
is always present in the returned map — bound to the stripped first line,
possibly empty, including for the empty string and inputs beginning with a
newline — and therefore the `Unknown Paper` fallback of the report title
line is never used: the defaulted lookup always returns the stored title. -/
theorem c10_title_always_present (text : String) :
    splitNl text.toList ≠ []
    ∧ extract_sections text "title"
        = some (String.mk (pyStrip ((splitNl text.toList).headD [])))
    ∧ ((extract_sections text) "title").getD "Unknown Paper"
        = String.mk (pyStrip ((splitNl text.toList).headD [])) := by
  refine ⟨splitNl_ne_nil text.toList, extract_title text, ?_⟩
  rw [extract_title text]
  rfl

end PaperSum
